import Mathlib

/-!
Verification of the financial calculation engines of the personal-finance
dashboard (mortgage amortization, UK net-salary/tax, retirement projection,
debt/goal payoff).

The numeric code is embedded over `ℚ` (exact arithmetic).  JavaScript's
`Math.floor` is `Int.floor`, `Math.round` is `round` (both round ties
toward `+∞`, matching the ECMAScript "pick the larger n" rule),
`Math.max`/`Math.min` are `max`/`min`, and `Number(x.toFixed(2))` is
rounding to the nearest hundredth.  Loop bounds and month counters are
naturals; calendar years/terms that the pages feed the engines are
integers, so `Math.pow(1+r, n)` is `(1+r) ^ n.toNat` under the `0 < n`
guards the code itself establishes.
-/

namespace TheSpreadSheet

/-! ### Mortgage amortization engine (mortgage page) -/

/-- `monthlyPayment(loan, annualRate, years)`: the fixed-rate annuity
payment.  Mirrors: `r = annualRate/100/12; n = years*12;
if (n <= 0) return 0; if (r === 0) return loan / n;
f = (1+r)^n; return loan*r*f/(f-1)`. -/
def monthlyPayment (loan annualRate : ℚ) (years : ℤ) : ℚ :=
  let r := annualRate / 100 / 12
  let n : ℤ := years * 12
  if n ≤ 0 then 0
  else if r = 0 then loan / (n : ℚ)
  else
    let f := (1 + r) ^ n.toNat
    loan * r * f / (f - 1)

/-- One yearly row of the amortization schedule:
`{ year, Principal, Interest }`. -/
structure YearRow where
  year : ℕ
  Principal : ℚ
  Interest : ℚ
deriving Repr, DecidableEq

/-- The loop state of `buildAmortization`: remaining balance, months
elapsed, and accumulated yearly rows. -/
structure AmortState where
  bal : ℚ
  month : ℕ
  rows : List YearRow
deriving Repr, DecidableEq

/-- `if (!rows[yearIndex]) rows[yearIndex] = {year, 0, 0};
rows[yearIndex].Principal += principal; rows[yearIndex].Interest += interest`.
Months are consecutive so the only reachable out-of-range index is
`yearIndex = rows.length`, where a fresh row is created. -/
def addToRows (rows : List YearRow) (yearIndex : ℕ) (p i : ℚ) : List YearRow :=
  match rows[yearIndex]? with
  | some row => rows.set yearIndex ⟨row.year, row.Principal + p, row.Interest + i⟩
  | none => rows ++ [⟨yearIndex + 1, p, i⟩]

/-- The body of `buildAmortization`'s `while (bal > 0 && month < n + 600)`
loop, with the remaining iteration budget as fuel.  Each iteration:
`month++; yearIndex = ceil(month/12)-1; interest = bal*r;
principal = pay - interest, capped at bal; bal = max(0, bal - principal)`;
accumulate into the year row; `if (pay <= interest && r > 0) break`. -/
def amortGo (r pay : ℚ) : ℕ → ℚ → ℕ → List YearRow → AmortState
  | 0, bal, month, rows => ⟨bal, month, rows⟩
  | fuel + 1, bal, month, rows =>
    if 0 < bal then
      let month' := month + 1
      let yearIndex := (month' - 1) / 12
      let interest := bal * r
      let principal0 := pay - interest
      let principal := if bal < principal0 then bal else principal0
      let bal' := max 0 (bal - principal)
      let rows' := addToRows rows yearIndex principal interest
      if pay ≤ interest ∧ 0 < r then ⟨bal', month', rows'⟩
      else amortGo r pay fuel bal' month' rows'
    else ⟨bal, month, rows⟩

/-- The full amortization loop of `buildAmortization` before the final
rounding pass: runs `amortGo` from the loan balance with the source's
`n + 600` iteration bound. -/
def amortResult (loan annualRate : ℚ) (years : ℤ) (monthlyOverpay : ℚ) :
    AmortState :=
  let r := annualRate / 100 / 12
  let n : ℤ := years * 12
  let pay := monthlyPayment loan annualRate years + monthlyOverpay
  amortGo r pay (n + 600).toNat loan 0 []

/-- `Number(x.toFixed(2))`: round to the nearest hundredth. -/
def round2 (x : ℚ) : ℚ := ((round (100 * x) : ℤ) : ℚ) / 100

/-- `buildAmortization(loan, annualRate, years, monthlyOverpay)`: the
schedule rows, each rounded to 2 decimal places in the final map. -/
def buildAmortization (loan annualRate : ℚ) (years : ℤ)
    (monthlyOverpay : ℚ) : List YearRow :=
  (amortResult loan annualRate years monthlyOverpay).rows.map
    fun x => ⟨x.year, round2 x.Principal, round2 x.Interest⟩

/-- Sum of the `Principal` column of a schedule. -/
def sumP (rows : List YearRow) : ℚ := (rows.map YearRow.Principal).sum

/-- Sum of the `Interest` column of a schedule. -/
def sumI (rows : List YearRow) : ℚ := (rows.map YearRow.Interest).sum

/-- The exact balance trajectory of the loop on
`loan = 4095, annualRate = 1200 (so r = 1), years = 1, overpay = 1`
(payment `4097`): used to settle the month count of that run. -/
def cex2 : ℕ → ℚ
  | 0 => 4095
  | 1 => 4093
  | 2 => 4089
  | 3 => 4081
  | 4 => 4065
  | 5 => 4033
  | 6 => 3969
  | 7 => 3841
  | 8 => 3585
  | 9 => 3073
  | 10 => 2049
  | 11 => 1
  | _ => 0

/-! ### Net salary / tax engine (salary page) -/

/-- `clamp(v, min, max) = Math.min(max, Math.max(min, v))`. -/
def clamp (v lo hi : ℚ) : ℚ := min hi (max lo v)

/-- The result record of `calculateNetSalary`. -/
structure CalcResult where
  pension : ℚ
  incomeTax : ℚ
  nationalInsurance : ℚ
  netAnnual : ℚ
  netMonthly : ℚ
  bandLabel : String
  bandColor : String
  effectiveTaxRate : ℚ
  netWeekly : ℚ
  netDaily : ℚ
  netHourly : ℚ
deriving Repr, DecidableEq

/-- `pension = Math.max(0, (salary * (pensionPct || 0)) / 100)`
(`x || 0` is the identity on numbers since `0 || 0 = 0`). -/
def pensionOf (salary pensionPct : ℚ) : ℚ := max 0 (salary * pensionPct / 100)

/-- `salaryAfterPension = Math.max(0, salary - pension)`. -/
def salaryAfterPension (salary pensionPct : ℚ) : ℚ :=
  max 0 (salary - pensionOf salary pensionPct)

/-- The personal-allowance taper: above £100,000 the allowance 12,570 is
reduced by `Math.min(12570, Math.floor((s - 100000) / 2))`, floored at 0. -/
def taperedAllowanceOf (s : ℚ) : ℚ :=
  if 100000 < s then
    max 0 (12570 - min 12570 ((⌊(s - 100000) / 2⌋ : ℤ) : ℚ))
  else 12570

/-- `taxableIncome = Math.max(0, salaryAfterPension - taperedAllowance)`. -/
def taxableIncomeOf (s : ℚ) : ℚ := max 0 (s - taperedAllowanceOf s)

/-- The basic-rate branch (`salaryAfterPension ≤ 50270`):
`incomeTax = taxableIncome * 0.20`. -/
def incomeTaxBasic (s : ℚ) : ℚ := taxableIncomeOf s * (20 / 100)

/-- The higher-rate branch (`50270 < salaryAfterPension ≤ 125140`):
basic band at 20% plus the excess over 50,270 at 40%. -/
def incomeTaxHigher (s : ℚ) : ℚ :=
  max 0 (50270 - taperedAllowanceOf s) * (20 / 100) + (s - 50270) * (40 / 100)

/-- The additional-rate branch (`salaryAfterPension > 125140`): basic
band at 20%, 50,270–125,140 at 40%, and the excess over 125,140 at 45%. -/
def incomeTaxAdditional (s : ℚ) : ℚ :=
  max 0 (50270 - taperedAllowanceOf s) * (20 / 100) +
    (125140 - 50270) * (40 / 100) + (s - 125140) * (45 / 100)

/-- The full banded income-tax computation of `calculateNetSalary`,
as a function of `salaryAfterPension`. -/
def incomeTaxOf (s : ℚ) : ℚ :=
  if s ≤ 50270 then incomeTaxBasic s
  else if s ≤ 125140 then incomeTaxHigher s
  else incomeTaxAdditional s

/-- `ni = salaryAfterPension > 12570 ? (salaryAfterPension - 12570) * 0.12 : 0`. -/
def nationalInsuranceOf (s : ℚ) : ℚ :=
  if 12570 < s then (s - 12570) * (12 / 100) else 0

/-- `getTaxBand(salaryAfterPension)`, label component. -/
def getTaxBand (s : ℚ) : String :=
  if 125140 < s then "Very High Earner"
  else if 50270 < s then "Higher Rate Payer"
  else "Basic Rate Payer"

/-- `getTaxBand(salaryAfterPension)`, color component. -/
def getTaxBandColor (s : ℚ) : String :=
  if 125140 < s then "bg-red-600"
  else if 50270 < s then "bg-yellow-500"
  else "bg-green-600"

/-- `calculateNetSalary(salary, pensionPct, hoursPerWeek)`.
`hoursPerWeek || 37.5` maps the falsy `0` to the default `37.5`. -/
def calculateNetSalary (salary pensionPct hoursPerWeek : ℚ) : CalcResult :=
  let pension := pensionOf salary pensionPct
  let sap := salaryAfterPension salary pensionPct
  let incomeTax := incomeTaxOf sap
  let ni := nationalInsuranceOf sap
  let netAnnual := max 0 (sap - incomeTax - ni)
  let netMonthly := netAnnual / 12
  let effectiveTaxRate :=
    if 0 < salary then (incomeTax + ni) / salary * 100 else 0
  let netWeekly := netAnnual / 52
  let netDaily := netWeekly / 5
  let weeklyHours :=
    clamp (if hoursPerWeek = 0 then 37.5 else hoursPerWeek) 10 80
  let netHourly := netWeekly / weeklyHours
  { pension := pension
    incomeTax := incomeTax
    nationalInsurance := ni
    netAnnual := netAnnual
    netMonthly := netMonthly
    bandLabel := getTaxBand sap
    bandColor := getTaxBandColor sap
    effectiveTaxRate := effectiveTaxRate
    netWeekly := netWeekly
    netDaily := netDaily
    netHourly := netHourly }

/-! ### Calendar utilities and debt/goal payoff engine (goals page) -/

/-- A calendar date as JavaScript exposes it: `getFullYear()`,
`getMonth()` (0–11) and `getDate()` (1–31). -/
structure SimpleDate where
  year : ℤ
  month : ℤ
  day : ℤ
deriving Repr, DecidableEq

/-- `start` is strictly earlier than `b` in calendar order. -/
def dateBefore (a b : SimpleDate) : Prop :=
  a.year < b.year ∨
    (a.year = b.year ∧
      (a.month < b.month ∨ (a.month = b.month ∧ a.day < b.day)))

instance (a b : SimpleDate) : Decidable (dateBefore a b) := by
  unfold dateBefore
  infer_instance

/-- `monthsBetween(startDate, endDate)`: whole-month difference,
decremented when the end day-of-month precedes the start's, clamped at 0. -/
def monthsBetween (start deadline : SimpleDate) : ℤ :=
  let months := (deadline.year - start.year) * 12 +
    (deadline.month - start.month)
  max 0 (if deadline.day < start.day then months - 1 else months)

/-- `debtMonthlyPayment(balance, aprPct, months)`: annuity payment, with
`months ≤ 0 ↦ 0` and `r ≤ 0 ↦ balance/months`. -/
def debtMonthlyPayment (balance aprPct : ℚ) (months : ℤ) : ℚ :=
  if months ≤ 0 then 0
  else
    let r := aprPct / 100 / 12
    if r ≤ 0 then balance / (months : ℚ)
    else
      let f := (1 + r) ^ months.toNat
      balance * r * f / (f - 1)

/-- Savings goal: `monthsLeft > 0 ? max(0, target - saved) / monthsLeft : 0`. -/
def monthlyNeedSavings (target saved : ℚ) (monthsLeft : ℤ) : ℚ :=
  if 0 < monthsLeft then max 0 (target - saved) / (monthsLeft : ℚ) else 0

/-- Debt: `monthsLeft > 0 ? debtMonthlyPayment(target, apr, monthsLeft) : 0`. -/
def monthlyPaymentDebt (target aprPct : ℚ) (monthsLeft : ℤ) : ℚ :=
  if 0 < monthsLeft then debtMonthlyPayment target aprPct monthsLeft else 0

/-- Debt: `monthsLeft > 0 ? monthlyPaymentDebt * monthsLeft : target`. -/
def totalCostDebt (target aprPct : ℚ) (monthsLeft : ℤ) : ℚ :=
  if 0 < monthsLeft then monthlyPaymentDebt target aprPct monthsLeft *
    (monthsLeft : ℚ)
  else target

/-- Debt: `monthsLeft > 0 ? totalCostDebt - target : 0`. -/
def totalInterestDebt (target aprPct : ℚ) (monthsLeft : ℤ) : ℚ :=
  if 0 < monthsLeft then totalCostDebt target aprPct monthsLeft - target
  else 0

/-! ### Retirement projection engine (retirement page) -/

/-- One recorded projection row: `{ name: "⟨y⟩y", pot }` with the pot
rounded to a whole currency unit and floored at 0. -/
structure ProjPoint where
  name : String
  pot : ℤ
deriving Repr, DecidableEq

/-- The running pot value after `i` months:
`pot = pot * (1 + monthlyNet) + contribution` applied only for `i > 0`. -/
def potAt (start contrib monthlyNet : ℚ) : ℕ → ℚ
  | 0 => start
  | i + 1 => potAt start contrib monthlyNet i * (1 + monthlyNet) + contrib

/-- `generateProjectionData(startingPot, monthlyContribution,
nominalReturnPct, annualFeesPct, months)`: records a row at every 12th
month and at the final month, `Math.max(0, Math.round(pot))`. -/
def generateProjectionData (startingPot monthlyContribution
    nominalReturnPct annualFeesPct : ℚ) (months : ℕ) : List ProjPoint :=
  let monthlyGross := nominalReturnPct / 100 / 12
  let monthlyFees := annualFeesPct / 100 / 12
  let monthlyNet := max (-1) (monthlyGross - monthlyFees)
  (List.range (months + 1)).filterMap fun i =>
    if i % 12 = 0 ∨ i = months then
      some ⟨toString (i / 12) ++ "y",
        max 0 (round (potAt startingPot monthlyContribution monthlyNet i))⟩
    else none

/-! #### Unfolding lemmas for the amortization loop -/

lemma amortGo_zero (r pay bal : ℚ) (month : ℕ) (rows : List YearRow) :
    amortGo r pay 0 bal month rows = ⟨bal, month, rows⟩ := rfl

lemma amortGo_succ (r pay : ℚ) (fuel : ℕ) (bal : ℚ) (month : ℕ)
    (rows : List YearRow) :
    amortGo r pay (fuel + 1) bal month rows =
      if 0 < bal then
        if pay ≤ bal * r ∧ 0 < r then
          ⟨max 0 (bal - (if bal < pay - bal * r then bal else pay - bal * r)),
           month + 1,
           addToRows rows ((month + 1 - 1) / 12)
             (if bal < pay - bal * r then bal else pay - bal * r) (bal * r)⟩
        else
          amortGo r pay fuel
            (max 0 (bal - (if bal < pay - bal * r then bal else pay - bal * r)))
            (month + 1)
            (addToRows rows ((month + 1 - 1) / 12)
              (if bal < pay - bal * r then bal else pay - bal * r) (bal * r))
      else ⟨bal, month, rows⟩ := rfl

lemma amortGo_stop (r pay : ℚ) (fuel : ℕ) (bal : ℚ) (month : ℕ)
    (rows : List YearRow) (h : ¬ 0 < bal) :
    amortGo r pay fuel bal month rows = ⟨bal, month, rows⟩ := by
  cases fuel with
  | zero => rfl
  | succ fuel => rw [amortGo_succ, if_neg h]

/-- The capped balance update equals a single clamped affine step:
`max 0 (bal - principal) = max 0 ((1+r)·bal - pay)`. -/
lemma cap_step_eq (r pay bal : ℚ) :
    max 0 (bal - (if bal < pay - bal * r then bal else pay - bal * r)) =
      max 0 ((1 + r) * bal - pay) := by
  rcases lt_or_ge bal (pay - bal * r) with h | h
  · rw [if_pos h]
    have h1 : (1 + r) * bal - pay ≤ 0 := by nlinarith
    rw [sub_self, max_eq_left le_rfl, max_eq_left h1]
  · rw [if_neg (not_lt.mpr h)]
    congr 1
    ring

lemma sumP_addToRows (rows : List YearRow) (y : ℕ) (p i : ℚ) :
    sumP (addToRows rows y p i) = sumP rows + p := by
  induction rows generalizing y with
  | nil => simp [addToRows, sumP]
  | cons row rest ih =>
    cases y with
    | zero => simp [addToRows, sumP]; ring
    | succ y =>
      have h := ih y
      simp only [addToRows, List.getElem?_cons_succ] at h ⊢
      cases hg : rest[y]? with
      | none =>
        simp [hg, sumP] at h ⊢
        linarith
      | some row' =>
        simp only [hg, List.set_cons_succ]
        simp [hg, sumP] at h ⊢
        linarith

lemma sumI_addToRows (rows : List YearRow) (y : ℕ) (p i : ℚ) :
    sumI (addToRows rows y p i) = sumI rows + i := by
  induction rows generalizing y with
  | nil => simp [addToRows, sumI]
  | cons row rest ih =>
    cases y with
    | zero => simp [addToRows, sumI]; ring
    | succ y =>
      have h := ih y
      simp only [addToRows, List.getElem?_cons_succ] at h ⊢
      cases hg : rest[y]? with
      | none =>
        simp [hg, sumI] at h ⊢
        linarith
      | some row' =>
        simp only [hg, List.set_cons_succ]
        simp [hg, sumI] at h ⊢
        linarith

/-- Conservation: every iteration moves exactly the recorded principal
from the balance into the schedule, so
`bal + Σ Principal` is a loop invariant. -/
lemma amortGo_conserve (r pay : ℚ) :
    ∀ (fuel : ℕ) (bal : ℚ) (month : ℕ) (rows : List YearRow),
      (amortGo r pay fuel bal month rows).bal +
        sumP (amortGo r pay fuel bal month rows).rows = bal + sumP rows := by
  intro fuel
  induction fuel with
  | zero => intro bal month rows; rfl
  | succ fuel ih =>
    intro bal month rows
    rw [amortGo_succ]
    by_cases hb : 0 < bal
    · rw [if_pos hb]
      set principal := if bal < pay - bal * r then bal else pay - bal * r with hp
      have hple : principal ≤ bal := by
        rw [hp]; split
        · exact le_rfl
        · next h => exact le_of_not_lt h
      have hmax : max 0 (bal - principal) = bal - principal :=
        max_eq_right (by linarith)
      by_cases hbrk : pay ≤ bal * r ∧ 0 < r
      · rw [if_pos hbrk]
        simp only [hmax, sumP_addToRows]
        ring
      · rw [if_neg hbrk, ih, hmax, sumP_addToRows]
        ring
    · rw [if_neg hb]

/-- The month counter never decreases. -/
lemma amortGo_month_ge (r pay : ℚ) :
    ∀ (fuel : ℕ) (bal : ℚ) (month : ℕ) (rows : List YearRow),
      month ≤ (amortGo r pay fuel bal month rows).month := by
  intro fuel
  induction fuel with
  | zero => intro bal month rows; exact le_rfl
  | succ fuel ih =>
    intro bal month rows
    rw [amortGo_succ]
    by_cases hb : 0 < bal
    · rw [if_pos hb]
      by_cases hbrk : pay ≤ bal * r ∧ 0 < r
      · rw [if_pos hbrk]; exact Nat.le_succ month
      · rw [if_neg hbrk]
        exact le_trans (Nat.le_succ month) (ih _ _ _)
    · rw [if_neg hb]

/-- The loop executes at most `fuel` iterations. -/
lemma amortGo_month_le (r pay : ℚ) :
    ∀ (fuel : ℕ) (bal : ℚ) (month : ℕ) (rows : List YearRow),
      (amortGo r pay fuel bal month rows).month ≤ month + fuel := by
  intro fuel
  induction fuel with
  | zero => intro bal month rows; exact le_rfl
  | succ fuel ih =>
    intro bal month rows
    rw [amortGo_succ]
    by_cases hb : 0 < bal
    · rw [if_pos hb]
      by_cases hbrk : pay ≤ bal * r ∧ 0 < r
      · rw [if_pos hbrk]
        show month + 1 ≤ month + (fuel + 1)
        omega
      · rw [if_neg hbrk]
        exact (ih _ _ _).trans (by omega)
    · rw [if_neg hb]
      exact Nat.le_add_right month (fuel + 1)

/-- Running the loop along an explicit balance trajectory `c` that is
positive before step `m`, zero at step `m`, follows the clamped affine
update, and always affords the interest: the loop exits with balance 0
after exactly `m - i` further months. -/
lemma amortGo_run (r pay : ℚ) (c : ℕ → ℚ) (m : ℕ)
    (hstep : ∀ k, k < m → c (k + 1) = max 0 ((1 + r) * c k - pay))
    (hzero : c m = 0)
    (hpos : ∀ k, k < m → 0 < c k)
    (hnb : ∀ k, k < m → r * c k < pay) :
    ∀ (d i fuel month : ℕ) (rows : List YearRow),
      i + d = m → d ≤ fuel →
      (amortGo r pay fuel (c i) month rows).bal = 0 ∧
      (amortGo r pay fuel (c i) month rows).month = month + d := by
  intro d
  induction d with
  | zero =>
    intro i fuel month rows hi _
    have hc : c i = 0 := by rw [show i = m by omega]; exact hzero
    rw [hc, amortGo_stop _ _ _ _ _ _ (by norm_num)]
    exact ⟨rfl, rfl⟩
  | succ d ih =>
    intro i fuel month rows hi hf
    obtain ⟨f, rfl⟩ : ∃ f, fuel = f + 1 := ⟨fuel - 1, by omega⟩
    have him : i < m := by omega
    have hci : 0 < c i := hpos i him
    rw [amortGo_succ, if_pos hci]
    have hbrk : ¬ (pay ≤ c i * r ∧ 0 < r) := by
      rintro ⟨hle, -⟩
      have h := hnb i him
      rw [mul_comm] at h
      linarith
    rw [if_neg hbrk, cap_step_eq, ← hstep i him]
    have h1 := ih (i + 1) f (month + 1)
      (addToRows rows ((month + 1 - 1) / 12)
        (if c i < pay - c i * r then c i else pay - c i * r) (c i * r))
      (by omega) (by omega)
    exact ⟨h1.1, by rw [h1.2]; omega⟩

/-- Zero monthly rate, payment `loan / N`: the loop amortizes linearly
and pays off at exactly month `N`. -/
lemma amortGo_linear_payoff (loan : ℚ) (N fuel : ℕ)
    (hL : 0 < loan) (hN : 0 < N) (hfuel : N ≤ fuel) :
    (amortGo 0 (loan / (N : ℚ)) fuel loan 0 []).bal = 0 ∧
    (amortGo 0 (loan / (N : ℚ)) fuel loan 0 []).month = N := by
  have hNq : (0 : ℚ) < (N : ℚ) := by exact_mod_cast hN
  have hp : 0 < loan / (N : ℚ) := div_pos hL hNq
  have key := amortGo_run 0 (loan / (N : ℚ))
    (fun k => loan - (k : ℚ) * (loan / (N : ℚ))) N
    (by
      intro k hk
      have hnext : (0 : ℚ) ≤ loan - ((k : ℚ) + 1) * (loan / (N : ℚ)) := by
        have hk1 : ((k : ℚ) + 1) ≤ (N : ℚ) := by exact_mod_cast hk
        have : ((k : ℚ) + 1) * (loan / (N : ℚ)) ≤ (N : ℚ) * (loan / (N : ℚ)) :=
          mul_le_mul_of_nonneg_right hk1 (le_of_lt hp)
        rw [mul_div_cancel₀ loan (ne_of_gt hNq)] at this
        linarith
      rw [max_eq_right (by push_cast; linarith)]
      push_cast
      ring
    )
    (by
      have hne : (N : ℚ) ≠ 0 := ne_of_gt hNq
      field_simp
    )
    (by
      intro k hk
      have hkq : (k : ℚ) < (N : ℚ) := by exact_mod_cast hk
      have : (k : ℚ) * (loan / (N : ℚ)) < (N : ℚ) * (loan / (N : ℚ)) :=
        mul_lt_mul_of_pos_right hkq hp
      rw [mul_div_cancel₀ loan (ne_of_gt hNq)] at this
      linarith
    )
    (by
      intro k hk
      simpa using hp
    )
    N 0 fuel 0 [] (by omega) hfuel
  simpa using key

/-- Positive monthly rate with the annuity payment: the closed-form
balance `loan·(f − (1+r)^k)/(f − 1)` drives the loop to balance 0 at
exactly month `N`. -/
lemma amortGo_annuity_payoff (loan r : ℚ) (N fuel : ℕ)
    (hL : 0 < loan) (hr : 0 < r) (hN : 0 < N) (hfuel : N ≤ fuel) :
    (amortGo r (loan * r * (1 + r) ^ N / ((1 + r) ^ N - 1)) fuel loan 0 []).bal
      = 0 ∧
    (amortGo r (loan * r * (1 + r) ^ N / ((1 + r) ^ N - 1)) fuel loan 0 []).month
      = N := by
  set f : ℚ := (1 + r) ^ N with hf
  have hf1 : 1 < f := one_lt_pow₀ (by linarith) (Nat.pos_iff_ne_zero.mp hN)
  have hfne : f - 1 ≠ 0 := by linarith
  set pay : ℚ := loan * r * f / (f - 1) with hpay
  have hstep' : ∀ k, (1 + r) * (loan * (f - (1 + r) ^ k) / (f - 1)) - pay =
      loan * (f - (1 + r) ^ (k + 1)) / (f - 1) := by
    intro k
    rw [hpay]
    field_simp
    ring
  have key := amortGo_run r pay (fun k => loan * (f - (1 + r) ^ k) / (f - 1)) N
    (by
      intro k hk
      show loan * (f - (1 + r) ^ (k + 1)) / (f - 1) =
        max 0 ((1 + r) * (loan * (f - (1 + r) ^ k) / (f - 1)) - pay)
      have hle : (1 + r) ^ (k + 1) ≤ f :=
        pow_le_pow_right₀ (by linarith) (by omega)
      rw [max_eq_right]
      · exact (hstep' k).symm
      · rw [hstep' k]
        exact div_nonneg (mul_nonneg hL.le (by linarith)) (by linarith)
    )
    (by simp)
    (by
      intro k hk
      show 0 < loan * (f - (1 + r) ^ k) / (f - 1)
      have hlt : (1 + r) ^ k < f := pow_lt_pow_right₀ (by linarith) hk
      have h2 : 0 < f - (1 + r) ^ k := by linarith
      exact div_pos (mul_pos hL h2) (by linarith)
    )
    (by
      intro k hk
      show r * (loan * (f - (1 + r) ^ k) / (f - 1)) < pay
      have h1 := hstep' k
      have hlt : (1 + r) ^ k < (1 + r) ^ (k + 1) :=
        pow_lt_pow_right₀ (by linarith) (by omega)
      have hmul : loan * (f - (1 + r) ^ (k + 1)) < loan * (f - (1 + r) ^ k) :=
        mul_lt_mul_of_pos_left (by linarith) hL
      have hdec : loan * (f - (1 + r) ^ (k + 1)) / (f - 1) <
          loan * (f - (1 + r) ^ k) / (f - 1) :=
        (div_lt_div_iff_of_pos_right (by linarith)).mpr hmul
      have hexp : (1 + r) * (loan * (f - (1 + r) ^ k) / (f - 1)) =
          loan * (f - (1 + r) ^ k) / (f - 1) +
            r * (loan * (f - (1 + r) ^ k) / (f - 1)) := by ring
      linarith [h1, hdec, hexp]
    )
    N 0 fuel 0 [] (by omega) hfuel
  have hc0 : loan * (f - 1) / (f - 1) = loan := by field_simp
  simpa [hc0] using key

/-- With no overpayment and valid inputs the loop exits with balance
exactly 0, at month `years*12`. -/
lemma amortResult_over_zero (loan rate : ℚ) (years : ℤ)
    (hL : 0 < loan) (hr : 0 ≤ rate) (hy : 0 < years) :
    (amortResult loan rate years 0).bal = 0 ∧
    (amortResult loan rate years 0).month = (years * 12).toNat := by
  have hn12 : (0:ℤ) < years * 12 := by omega
  have hnle : ¬ (years * 12 ≤ 0) := by omega
  have hNpos : 0 < (years * 12).toNat := by omega
  have hfuel : (years * 12).toNat ≤ (years * 12 + 600).toNat := by omega
  have hcast : ((years * 12 : ℤ) : ℚ) = (((years * 12).toNat : ℕ) : ℚ) := by
    have h := Int.toNat_of_nonneg (le_of_lt hn12)
    exact_mod_cast h.symm
  rcases hr.eq_or_lt with hr0 | hrpos
  · have hrr : rate / 100 / 12 = 0 := by rw [← hr0]; norm_num
    have hpay : monthlyPayment loan rate years + 0 =
        loan / (((years * 12).toNat : ℕ) : ℚ) := by
      simp only [monthlyPayment]
      rw [if_neg hnle, if_pos hrr, add_zero, hcast]
    simp only [amortResult]
    rw [hpay, hrr]
    exact amortGo_linear_payoff loan _ _ hL hNpos hfuel
  · have hrpos' : 0 < rate / 100 / 12 := by positivity
    have hrr : ¬ (rate / 100 / 12 = 0) := ne_of_gt hrpos'
    have hpay : monthlyPayment loan rate years + 0 =
        loan * (rate / 100 / 12) * (1 + rate / 100 / 12) ^ (years * 12).toNat /
          ((1 + rate / 100 / 12) ^ (years * 12).toNat - 1) := by
      simp only [monthlyPayment]
      rw [if_neg hnle, if_neg hrr, add_zero]
    simp only [amortResult]
    rw [hpay]
    exact amortGo_annuity_payoff loan _ _ _ hL hrpos' hNpos hfuel

/-- The balance/principal conservation invariant at the top level:
balance at exit plus the principal recorded in the schedule is the loan. -/
lemma amortResult_conserve (loan rate : ℚ) (years : ℤ) (over : ℚ) :
    (amortResult loan rate years over).bal +
      sumP (amortResult loan rate years over).rows = loan := by
  simp only [amortResult]
  rw [amortGo_conserve]
  simp [sumP]

/-- Rounding to 2 decimals moves a value by at most half a penny. -/
lemma abs_round2_sub (x : ℚ) : |round2 x - x| ≤ 1 / 200 := by
  have h := abs_sub_round (100 * x)
  rw [abs_sub_comm] at h
  have heq : round2 x - x = (((round (100 * x) : ℤ) : ℚ) - 100 * x) / 100 := by
    rw [round2]; ring
  rw [heq, abs_div, abs_of_pos (by norm_num : (0:ℚ) < 100)]
  rw [div_le_div_iff₀ (by norm_num) (by norm_num)]
  linarith

/-- Rounding each list entry to 2 decimals moves the sum by at most
half a penny per entry. -/
lemma abs_sum_round2_sub (l : List ℚ) :
    |(l.map round2).sum - l.sum| ≤ (l.length : ℚ) * (1 / 200) := by
  induction l with
  | nil => simp
  | cons x xs ih =>
    have hx := abs_round2_sub x
    have htri : |round2 x - x + ((xs.map round2).sum - xs.sum)| ≤
        |round2 x - x| + |(xs.map round2).sum - xs.sum| := abs_add _ _
    have heq : ((x :: xs).map round2).sum - (x :: xs).sum =
        round2 x - x + ((xs.map round2).sum - xs.sum) := by
      simp [List.sum_cons]
      ring
    rw [heq]
    have hlen : (((x :: xs).length : ℕ) : ℚ) = (xs.length : ℚ) + 1 := by
      push_cast [List.length_cons]
      ring
    rw [hlen]
    calc |round2 x - x + ((xs.map round2).sum - xs.sum)| ≤
        |round2 x - x| + |(xs.map round2).sum - xs.sum| := htri
      _ ≤ 1 / 200 + (xs.length : ℚ) * (1 / 200) := by linarith
      _ = ((xs.length : ℚ) + 1) * (1 / 200) := by ring

/-- C1. With zero overpayment and valid inputs, the schedule pays the
loan off exactly: the remaining balance at loop exit is 0, the exact
(pre-rounding) principal across all yearly rows sums to the loan, and
the rounded output rows' principal sums to the loan within half a penny
per row. -/
theorem c1_amortization_conservation (loan rate : ℚ) (years : ℤ)
    (hL : 0 < loan) (hr : 0 ≤ rate) (hy : 0 < years) :
    (amortResult loan rate years 0).bal = 0 ∧
    sumP (amortResult loan rate years 0).rows = loan ∧
    |sumP (buildAmortization loan rate years 0) - loan| ≤
      ((buildAmortization loan rate years 0).length : ℚ) * (1 / 200) := by
  obtain ⟨hbal, -⟩ := amortResult_over_zero loan rate years hL hr hy
  have hcons := amortResult_conserve loan rate years 0
  have hsum : sumP (amortResult loan rate years 0).rows = loan := by
    rw [hbal] at hcons
    linarith
  refine ⟨hbal, hsum, ?_⟩
  have hmap : sumP (buildAmortization loan rate years 0) =
      (((amortResult loan rate years 0).rows.map YearRow.Principal).map
        round2).sum := by
    simp [buildAmortization, sumP, List.map_map]
    rfl
  have hlen : (buildAmortization loan rate years 0).length =
      ((amortResult loan rate years 0).rows.map YearRow.Principal).length := by
    simp [buildAmortization]
  have hl := abs_sum_round2_sub
    ((amortResult loan rate years 0).rows.map YearRow.Principal)
  rw [hmap, hlen]
  have hsum' : ((amortResult loan rate years 0).rows.map YearRow.Principal).sum
      = loan := hsum
  rw [hsum'] at hl
  exact hl

/-- Witness for C1 at `loan = 4095`, `rate = 1200`, `years = 1`. -/
theorem c1_amortization_conservation_witness :
    (amortResult 4095 1200 1 0).bal = 0 ∧
    sumP (amortResult 4095 1200 1 0).rows = 4095 :=
  ⟨(c1_amortization_conservation 4095 1200 1 (by norm_num) (by norm_num)
      (by norm_num)).1,
    (c1_amortization_conservation 4095 1200 1 (by norm_num) (by norm_num)
      (by norm_num)).2.1⟩

lemma amortResult_def (loan rate : ℚ) (years : ℤ) (over : ℚ) :
    amortResult loan rate years over =
      amortGo (rate / 100 / 12) (monthlyPayment loan rate years + over)
        (years * 12 + 600).toNat loan 0 [] := rfl

/-- One-iteration break: if the payment cannot cover the first month's
interest and the rate is positive, the loop exits after one month. -/
lemma amortGo_break (r pay : ℚ) (fuel : ℕ) (bal : ℚ) (month : ℕ)
    (rows : List YearRow) (hb : 0 < bal) (hr : 0 < r) (hpay : pay ≤ bal * r)
    (hfuel : 0 < fuel) :
    (amortGo r pay fuel bal month rows).month = month + 1 := by
  obtain ⟨f, rfl⟩ : ∃ f, fuel = f + 1 := ⟨fuel - 1, by omega⟩
  rw [amortGo_succ, if_pos hb, if_pos ⟨hpay, hr⟩]

/-- C3. The loop runs at most `years*12 + 600` iterations for any
inputs; and on degenerate inputs (positive rate, combined payment not
exceeding the first month's interest) it breaks after a single month
instead of running unbounded. -/
theorem c3_termination (loan rate : ℚ) (years : ℤ) (over : ℚ) :
    (amortResult loan rate years over).month ≤ (years * 12 + 600).toNat ∧
    (0 ≤ years → 0 < rate → 0 < loan →
      monthlyPayment loan rate years + over ≤ loan * (rate / 100 / 12) →
      (amortResult loan rate years over).month = 1) := by
  constructor
  · rw [amortResult_def]
    have h := amortGo_month_le (rate / 100 / 12)
      (monthlyPayment loan rate years + over) (years * 12 + 600).toNat
      loan 0 []
    simpa using h
  · intro hy hrate hL hpay
    have hrpos : 0 < rate / 100 / 12 := by positivity
    have hfuel : 0 < (years * 12 + 600).toNat := by omega
    rw [amortResult_def]
    rw [amortGo_break _ _ _ _ _ _ hL hrpos hpay hfuel]

/-- Witness for C3 on the degenerate input
`loan = 10000, rate = 1200, years = 1, overpayment = -10`. -/
theorem c3_termination_witness :
    (amortResult 10000 1200 1 (-10)).month = 1 :=
  (c3_termination 10000 1200 1 (-10)).2 (by norm_num) (by norm_num)
    (by norm_num)
    (by
      norm_num [monthlyPayment]
      rw [show Int.toNat 12 = 12 from rfl]
      norm_num)

/-! #### Comparison of two runs with different payments (claim C2) -/

/-- A larger payment never slows the loop down: with the same fuel and a
dominated starting balance, the month counter of the larger-payment run
is no larger. -/
lemma amortGo_month_compare (r pay1 pay2 : ℚ) (hr : 0 ≤ r)
    (hp12 : pay1 ≤ pay2) :
    ∀ (fuel : ℕ) (b1 b2 : ℚ) (month : ℕ) (rows1 rows2 : List YearRow),
      0 ≤ b2 → b2 ≤ b1 → r * b1 < pay1 →
      (amortGo r pay2 fuel b2 month rows2).month ≤
        (amortGo r pay1 fuel b1 month rows1).month := by
  intro fuel
  induction fuel with
  | zero => intro b1 b2 month rows1 rows2 _ _ _; exact le_rfl
  | succ fuel ih =>
    intro b1 b2 month rows1 rows2 hb2 hb21 hrb
    by_cases h2 : 0 < b2
    · have h1 : 0 < b1 := lt_of_lt_of_le h2 hb21
      rw [amortGo_succ r pay2, amortGo_succ r pay1, if_pos h1, if_pos h2]
      have hnb1 : ¬ (pay1 ≤ b1 * r ∧ 0 < r) := by
        rintro ⟨hle, -⟩; rw [mul_comm] at hle; linarith
      have hnb2 : ¬ (pay2 ≤ b2 * r ∧ 0 < r) := by
        rintro ⟨hle, -⟩
        have hm : r * b2 ≤ r * b1 := mul_le_mul_of_nonneg_left hb21 hr
        rw [mul_comm] at hle
        linarith
      rw [if_neg hnb1, if_neg hnb2, cap_step_eq, cap_step_eq]
      have hexp : (1 + r) * b1 = b1 + r * b1 := by ring
      apply ih
      · exact le_max_left 0 _
      · apply max_le_max le_rfl
        have hm : (1 + r) * b2 ≤ (1 + r) * b1 :=
          mul_le_mul_of_nonneg_left hb21 (by linarith)
        linarith
      · have hb1le : max 0 ((1 + r) * b1 - pay1) ≤ b1 := by
          apply max_le (le_of_lt h1)
          linarith
        calc r * max 0 ((1 + r) * b1 - pay1) ≤ r * b1 :=
              mul_le_mul_of_nonneg_left hb1le hr
          _ < pay1 := hrb
    · rw [amortGo_stop r pay2 _ _ _ _ h2]
      exact amortGo_month_ge r pay1 _ _ _ _

/-- The interest column only grows as the loop runs. -/
lemma amortGo_sumI_ge (r pay : ℚ) (hr : 0 ≤ r) :
    ∀ (fuel : ℕ) (bal : ℚ) (month : ℕ) (rows : List YearRow), 0 ≤ bal →
      sumI rows ≤ sumI (amortGo r pay fuel bal month rows).rows := by
  intro fuel
  induction fuel with
  | zero => intro bal month rows _; exact le_rfl
  | succ fuel ih =>
    intro bal month rows hb
    by_cases h : 0 < bal
    · rw [amortGo_succ, if_pos h]
      have hint : 0 ≤ bal * r := mul_nonneg hb hr
      by_cases hbrk : pay ≤ bal * r ∧ 0 < r
      · rw [if_pos hbrk]
        show sumI rows ≤ sumI (addToRows rows _ _ _)
        rw [sumI_addToRows]
        linarith
      · rw [if_neg hbrk]
        have h1 := ih (max 0 (bal - (if bal < pay - bal * r then bal
            else pay - bal * r))) (month + 1)
          (addToRows rows ((month + 1 - 1) / 12)
            (if bal < pay - bal * r then bal else pay - bal * r) (bal * r))
          (le_max_left 0 _)
        have h2 : sumI rows ≤ sumI (addToRows rows ((month + 1 - 1) / 12)
            (if bal < pay - bal * r then bal else pay - bal * r) (bal * r)) := by
          rw [sumI_addToRows]; linarith
        exact le_trans h2 h1
    · rw [amortGo_stop _ _ _ _ _ _ h]

/-- A larger payment accumulates no more interest, step by step. -/
lemma amortGo_sumI_compare (r pay1 pay2 : ℚ) (hr : 0 ≤ r)
    (hp12 : pay1 ≤ pay2) :
    ∀ (fuel : ℕ) (b1 b2 : ℚ) (m1 m2 : ℕ) (rows1 rows2 : List YearRow),
      0 ≤ b2 → b2 ≤ b1 → r * b1 < pay1 →
      sumI (amortGo r pay2 fuel b2 m2 rows2).rows - sumI rows2 ≤
        sumI (amortGo r pay1 fuel b1 m1 rows1).rows - sumI rows1 := by
  intro fuel
  induction fuel with
  | zero =>
    intro b1 b2 m1 m2 rows1 rows2 _ _ _
    rw [amortGo_zero, amortGo_zero]
    norm_num
  | succ fuel ih =>
    intro b1 b2 m1 m2 rows1 rows2 hb2 hb21 hrb
    by_cases h2 : 0 < b2
    · have h1 : 0 < b1 := lt_of_lt_of_le h2 hb21
      rw [amortGo_succ r pay2, amortGo_succ r pay1, if_pos h1, if_pos h2]
      have hnb1 : ¬ (pay1 ≤ b1 * r ∧ 0 < r) := by
        rintro ⟨hle, -⟩; rw [mul_comm] at hle; linarith
      have hnb2 : ¬ (pay2 ≤ b2 * r ∧ 0 < r) := by
        rintro ⟨hle, -⟩
        have hm : r * b2 ≤ r * b1 := mul_le_mul_of_nonneg_left hb21 hr
        rw [mul_comm] at hle
        linarith
      rw [if_neg hnb1, if_neg hnb2, cap_step_eq, cap_step_eq]
      have hexp : (1 + r) * b1 = b1 + r * b1 := by ring
      have hih := ih (max 0 ((1 + r) * b1 - pay1))
        (max 0 ((1 + r) * b2 - pay2)) (m1 + 1) (m2 + 1)
        (addToRows rows1 ((m1 + 1 - 1) / 12)
          (if b1 < pay1 - b1 * r then b1 else pay1 - b1 * r) (b1 * r))
        (addToRows rows2 ((m2 + 1 - 1) / 12)
          (if b2 < pay2 - b2 * r then b2 else pay2 - b2 * r) (b2 * r))
        (le_max_left 0 _)
        (by
          apply max_le_max le_rfl
          have hm : (1 + r) * b2 ≤ (1 + r) * b1 :=
            mul_le_mul_of_nonneg_left hb21 (by linarith)
          linarith)
        (by
          have hb1le : max 0 ((1 + r) * b1 - pay1) ≤ b1 := by
            apply max_le (le_of_lt h1)
            linarith
          calc r * max 0 ((1 + r) * b1 - pay1) ≤ r * b1 :=
                mul_le_mul_of_nonneg_left hb1le hr
            _ < pay1 := hrb)
      have e1 : sumI (addToRows rows1 ((m1 + 1 - 1) / 12)
          (if b1 < pay1 - b1 * r then b1 else pay1 - b1 * r) (b1 * r)) =
          sumI rows1 + b1 * r := sumI_addToRows _ _ _ _
      have e2 : sumI (addToRows rows2 ((m2 + 1 - 1) / 12)
          (if b2 < pay2 - b2 * r then b2 else pay2 - b2 * r) (b2 * r)) =
          sumI rows2 + b2 * r := sumI_addToRows _ _ _ _
      have hii : b2 * r ≤ b1 * r := mul_le_mul_of_nonneg_right hb21 hr
      linarith [hih]
    · rw [amortGo_stop r pay2 _ _ _ _ h2]
      have hb1 : (0:ℚ) ≤ b1 := le_trans hb2 hb21
      have hge := amortGo_sumI_ge r pay1 hr (fuel + 1) b1 m1 rows1 hb1
      linarith

/-- Strict interest comparison: from a strictly dominated positive
starting balance, a larger payment accumulates strictly less interest. -/
lemma amortGo_sumI_strict (r pay1 pay2 : ℚ) (hr : 0 < r)
    (hp12 : pay1 ≤ pay2) :
    ∀ (fuel : ℕ) (b1 b2 : ℚ) (m1 m2 : ℕ) (rows1 rows2 : List YearRow),
      1 ≤ fuel → 0 ≤ b2 → b2 < b1 → r * b1 < pay1 →
      sumI (amortGo r pay2 fuel b2 m2 rows2).rows - sumI rows2 <
        sumI (amortGo r pay1 fuel b1 m1 rows1).rows - sumI rows1 := by
  intro fuel b1 b2 m1 m2 rows1 rows2 hf hb2 hb21 hrb
  obtain ⟨f, rfl⟩ : ∃ f, fuel = f + 1 := ⟨fuel - 1, by omega⟩
  have h1 : 0 < b1 := lt_of_le_of_lt hb2 hb21
  have hnb1 : ¬ (pay1 ≤ b1 * r ∧ 0 < r) := by
    rintro ⟨hle, -⟩; rw [mul_comm] at hle; linarith
  have hexp : (1 + r) * b1 = b1 + r * b1 := by ring
  have hb1le : max 0 ((1 + r) * b1 - pay1) ≤ b1 := by
    apply max_le (le_of_lt h1)
    linarith
  have hrb' : r * max 0 ((1 + r) * b1 - pay1) < pay1 :=
    lt_of_le_of_lt (mul_le_mul_of_nonneg_left hb1le hr.le) hrb
  have e1 : sumI (addToRows rows1 ((m1 + 1 - 1) / 12)
      (if b1 < pay1 - b1 * r then b1 else pay1 - b1 * r) (b1 * r)) =
      sumI rows1 + b1 * r := sumI_addToRows _ _ _ _
  by_cases h2 : 0 < b2
  · rw [amortGo_succ r pay2, amortGo_succ r pay1, if_pos h1, if_pos h2]
    have hnb2 : ¬ (pay2 ≤ b2 * r ∧ 0 < r) := by
      rintro ⟨hle, -⟩
      have hm : r * b2 ≤ r * b1 := mul_le_mul_of_nonneg_left hb21.le hr.le
      rw [mul_comm] at hle
      linarith
    rw [if_neg hnb1, if_neg hnb2, cap_step_eq, cap_step_eq]
    have hih := amortGo_sumI_compare r pay1 pay2 hr.le hp12 f
      (max 0 ((1 + r) * b1 - pay1)) (max 0 ((1 + r) * b2 - pay2))
      (m1 + 1) (m2 + 1)
      (addToRows rows1 ((m1 + 1 - 1) / 12)
        (if b1 < pay1 - b1 * r then b1 else pay1 - b1 * r) (b1 * r))
      (addToRows rows2 ((m2 + 1 - 1) / 12)
        (if b2 < pay2 - b2 * r then b2 else pay2 - b2 * r) (b2 * r))
      (le_max_left 0 _)
      (by
        apply max_le_max le_rfl
        have hm : (1 + r) * b2 ≤ (1 + r) * b1 :=
          mul_le_mul_of_nonneg_left hb21.le (by linarith)
        linarith)
      hrb'
    have e2 : sumI (addToRows rows2 ((m2 + 1 - 1) / 12)
        (if b2 < pay2 - b2 * r then b2 else pay2 - b2 * r) (b2 * r)) =
        sumI rows2 + b2 * r := sumI_addToRows _ _ _ _
    have hii : b2 * r < b1 * r := mul_lt_mul_of_pos_right hb21 hr
    linarith [hih]
  · rw [amortGo_stop r pay2 _ _ _ _ h2]
    rw [amortGo_succ r pay1, if_pos h1, if_neg hnb1]
    have hge := amortGo_sumI_ge r pay1 hr.le f
      (max 0 (b1 - (if b1 < pay1 - b1 * r then b1 else pay1 - b1 * r)))
      (m1 + 1)
      (addToRows rows1 ((m1 + 1 - 1) / 12)
        (if b1 < pay1 - b1 * r then b1 else pay1 - b1 * r) (b1 * r))
      (le_max_left 0 _)
    have hpos : 0 < b1 * r := mul_pos h1 hr
    linarith

/-- C4. For a zero interest rate the payment is computed by direct
division: `monthlyPayment loan 0 years = loan / (12*years)` whenever
`loan > 0` and `years > 0`; and for any rate, a non-positive payment
count `years*12 ≤ 0` yields `0`. -/
theorem c4_zero_rate_payment (loan : ℚ) (years : ℤ)
    (hL : 0 < loan) (hy : 0 < years) :
    monthlyPayment loan 0 years = loan / ((12 * years : ℤ) : ℚ) ∧
    ∀ (l rate : ℚ) (y : ℤ), y * 12 ≤ 0 → monthlyPayment l rate y = 0 := by
  constructor
  · have hn : ¬ (years * 12 ≤ 0) := by omega
    simp only [monthlyPayment, hn, if_false]
    norm_num
    ring_nf
  · intro l rate y hy0
    simp only [monthlyPayment, hy0, if_true]

/-- Witness for C4 at `loan = 1200`, `years = 1`. -/
theorem c4_zero_rate_payment_witness :
    monthlyPayment 1200 0 1 = (1200 : ℚ) / ((12 * 1 : ℤ) : ℚ) :=
  (c4_zero_rate_payment 1200 1 (by norm_num) (by norm_num)).1

/-- The annuity payment strictly exceeds the first month's interest. -/
lemma monthlyPayment_gt (loan rate : ℚ) (years : ℤ)
    (hL : 0 < loan) (hr : 0 < rate) (hy : 0 < years) :
    loan * (rate / 100 / 12) < monthlyPayment loan rate years := by
  have hnle : ¬ (years * 12 ≤ 0) := by omega
  have hrp : 0 < rate / 100 / 12 := by positivity
  have hrr : ¬ (rate / 100 / 12 = 0) := ne_of_gt hrp
  simp only [monthlyPayment]
  rw [if_neg hnle, if_neg hrr]
  set r := rate / 100 / 12 with hrdef
  set N := (years * 12).toNat with hN
  have hNpos : 0 < N := by omega
  have hf1 : 1 < (1 + r) ^ N := one_lt_pow₀ (by linarith) (by omega)
  have hfne : (1 + r) ^ N - 1 ≠ 0 := ne_of_gt (by linarith)
  have key : loan * r * (1 + r) ^ N / ((1 + r) ^ N - 1) - loan * r =
      loan * r / ((1 + r) ^ N - 1) := by
    field_simp
    ring
  have hpos : 0 < loan * r / ((1 + r) ^ N - 1) :=
    div_pos (mul_pos hL hrp) (by linarith)
  linarith

/-- C2, amended. For fixed `principal > 0`, `annualRatePct > 0`,
`termYears > 0` and overpayments `0 ≤ o1 < o2`: the month count never
increases, the exact (pre-rounding) total interest never increases, and
the total interest strictly decreases whenever the lower-overpayment
schedule runs at least two months. -/
theorem c2_overpayment_monotonic (loan rate : ℚ) (years : ℤ) (o1 o2 : ℚ)
    (hL : 0 < loan) (hr : 0 < rate) (hy : 0 < years)
    (ho1 : 0 ≤ o1) (ho12 : o1 < o2) :
    (amortResult loan rate years o2).month ≤
      (amortResult loan rate years o1).month ∧
    sumI (amortResult loan rate years o2).rows ≤
      sumI (amortResult loan rate years o1).rows ∧
    (2 ≤ (amortResult loan rate years o1).month →
      sumI (amortResult loan rate years o2).rows <
        sumI (amortResult loan rate years o1).rows) := by
  have hrp : 0 < rate / 100 / 12 := by positivity
  have hbase := monthlyPayment_gt loan rate years hL hr hy
  have hp12 : monthlyPayment loan rate years + o1 ≤
      monthlyPayment loan rate years + o2 := by linarith
  have hrb : rate / 100 / 12 * loan < monthlyPayment loan rate years + o1 := by
    rw [mul_comm]
    linarith
  refine ⟨?_, ?_, ?_⟩
  · rw [amortResult_def, amortResult_def]
    exact amortGo_month_compare _ _ _ hrp.le hp12 _ loan loan 0 [] []
      hL.le le_rfl hrb
  · rw [amortResult_def, amortResult_def]
    have h := amortGo_sumI_compare _ _ _ hrp.le hp12 ((years * 12 + 600).toNat)
      loan loan 0 0 [] [] hL.le le_rfl hrb
    have hnil : sumI ([] : List YearRow) = 0 := rfl
    linarith [h]
  · intro hm2
    rw [amortResult_def] at hm2 ⊢
    rw [amortResult_def]
    set r := rate / 100 / 12 with hrdef
    set pay1 := monthlyPayment loan rate years + o1 with hp1def
    set pay2 := monthlyPayment loan rate years + o2 with hp2def
    obtain ⟨f, hF⟩ : ∃ f, (years * 12 + 600).toNat = f + 1 :=
      ⟨(years * 12 + 600).toNat - 1, by omega⟩
    have hf1 : 1 ≤ f := by omega
    rw [hF] at hm2 ⊢
    have hnb1 : ¬ (pay1 ≤ loan * r ∧ 0 < r) := by
      rintro ⟨hle, -⟩; rw [mul_comm] at hle; linarith
    have hnb2 : ¬ (pay2 ≤ loan * r ∧ 0 < r) := by
      rintro ⟨hle, -⟩
      rw [mul_comm] at hle
      linarith
    rw [amortGo_succ r pay1, if_pos hL, if_neg hnb1, cap_step_eq] at hm2 ⊢
    rw [amortGo_succ r pay2, if_pos hL, if_neg hnb2, cap_step_eq]
    have hexp : (1 + r) * loan = loan + r * loan := by ring
    have hb1 : 0 < max 0 ((1 + r) * loan - pay1) := by
      rcases (le_max_left 0 ((1 + r) * loan - pay1)).lt_or_eq with h | h
      · exact h
      · exfalso
        rw [amortGo_stop _ _ _ _ _ _ (by rw [← h]; norm_num)] at hm2
        norm_num at hm2
    have hb2lt : max 0 ((1 + r) * loan - pay2) <
        max 0 ((1 + r) * loan - pay1) := by
      rcases le_or_lt ((1 + r) * loan - pay2) 0 with hle | hpos2
      · rw [max_eq_left hle]
        exact hb1
      · rw [max_eq_right hpos2.le, max_eq_right (by linarith)]
        linarith
    have hb1le : max 0 ((1 + r) * loan - pay1) ≤ loan := by
      apply max_le hL.le
      linarith
    have hrb' : r * max 0 ((1 + r) * loan - pay1) < pay1 :=
      lt_of_le_of_lt (mul_le_mul_of_nonneg_left hb1le hrp.le) hrb
    have hstrict := amortGo_sumI_strict r pay1 pay2 hrp hp12 f
      (max 0 ((1 + r) * loan - pay1)) (max 0 ((1 + r) * loan - pay2))
      (0 + 1) (0 + 1)
      (addToRows [] ((0 + 1 - 1) / 12)
        (if loan < pay1 - loan * r then loan else pay1 - loan * r) (loan * r))
      (addToRows [] ((0 + 1 - 1) / 12)
        (if loan < pay2 - loan * r then loan else pay2 - loan * r) (loan * r))
      hf1 (le_max_left 0 _) hb2lt hrb'
    have e1 : sumI (addToRows [] ((0 + 1 - 1) / 12)
        (if loan < pay1 - loan * r then loan else pay1 - loan * r)
        (loan * r)) = sumI [] + loan * r := sumI_addToRows _ _ _ _
    have e2 : sumI (addToRows [] ((0 + 1 - 1) / 12)
        (if loan < pay2 - loan * r then loan else pay2 - loan * r)
        (loan * r)) = sumI [] + loan * r := sumI_addToRows _ _ _ _
    linarith [hstrict]

/-- C2, counterexample to strictness of the month count: at
`principal = 4095 > 0`, `annualRatePct = 1200 > 0`, `termYears = 1 > 0`,
raising the overpayment from `0` to `1` leaves the number of months to
reach zero balance unchanged at 12 (it does not strictly decrease). -/
theorem c2_overpayment_counterexample :
    (amortResult 4095 1200 1 1).month = (amortResult 4095 1200 1 0).month ∧
    (amortResult 4095 1200 1 0).month = 12 := by
  have h0 : (amortResult 4095 1200 1 0).month = 12 := by
    have h := (amortResult_over_zero 4095 1200 1 (by norm_num) (by norm_num)
      (by norm_num)).2
    rw [h]
    rfl
  have hr1 : (1200 : ℚ) / 100 / 12 = 1 := by norm_num
  have hpay : monthlyPayment 4095 1200 1 + 1 = 4097 := by
    have hbase : monthlyPayment 4095 1200 1 = 4096 := by
      norm_num [monthlyPayment]
      rw [show Int.toNat 12 = 12 from rfl]
      norm_num
    rw [hbase]
    norm_num
  have h1 : (amortResult 4095 1200 1 1).month = 12 := by
    rw [amortResult_def, hr1, hpay]
    have key := amortGo_run 1 4097 cex2 12
      (by
        intro k hk
        interval_cases k <;> norm_num [cex2, max_def]
      )
      (by norm_num [cex2])
      (by
        intro k hk
        interval_cases k <;> norm_num [cex2]
      )
      (by
        intro k hk
        interval_cases k <;> norm_num [cex2]
      )
      12 0 ((1 * 12 + 600 : ℤ)).toNat 0 [] (by norm_num)
      (by rw [show ((1 * 12 + 600 : ℤ)).toNat = 612 from rfl]; norm_num)
    have hc0 : cex2 0 = 4095 := rfl
    rw [hc0] at key
    exact key.2
  rw [h0, h1]
  exact ⟨rfl, rfl⟩

/-- Witness for the amended C2 at
`loan = 4095, rate = 1200, years = 1, o1 = 0, o2 = 1`. -/
theorem c2_overpayment_monotonic_witness :
    sumI (amortResult 4095 1200 1 1).rows <
      sumI (amortResult 4095 1200 1 0).rows := by
  apply (c2_overpayment_monotonic 4095 1200 1 0 1 (by norm_num) (by norm_num)
    (by norm_num) le_rfl (by norm_num)).2.2
  have h := (amortResult_over_zero 4095 1200 1 (by norm_num) (by norm_num)
    (by norm_num)).2
  rw [h]
  norm_num

/-- C5. Income tax is continuous at the band edges: at
`salaryAfterPension = 50270` the higher-rate branch agrees with the
basic-rate-only formula, and at `125140` the additional-rate branch
agrees with the higher-rate branch. -/
theorem c5_tax_band_continuity :
    incomeTaxHigher 50270 = incomeTaxBasic 50270 ∧
    incomeTaxAdditional 125140 = incomeTaxHigher 125140 := by
  constructor
  · norm_num [incomeTaxHigher, incomeTaxBasic, taxableIncomeOf,
      taperedAllowanceOf]
  · norm_num [incomeTaxAdditional, incomeTaxHigher, taperedAllowanceOf]

/-- C6. The tapered personal allowance is exactly 0 from 125,140
upward, never negative, and above 100,000 it is the standard
£1-per-£2 reduction floored at 0. -/
theorem c6_allowance_taper (s : ℚ) :
    (125140 ≤ s → taperedAllowanceOf s = 0) ∧
    (100000 < s →
      taperedAllowanceOf s =
        max 0 (12570 - ((⌊(s - 100000) / 2⌋ : ℤ) : ℚ))) ∧
    0 ≤ taperedAllowanceOf s := by
  refine ⟨?_, ?_, ?_⟩
  · intro hs
    have h100 : (100000:ℚ) < s := by linarith
    rw [taperedAllowanceOf, if_pos h100]
    have hfl : (12570 : ℤ) ≤ ⌊(s - 100000) / 2⌋ := by
      apply Int.le_floor.mpr
      push_cast
      linarith
    have hmin : min (12570:ℚ) ((⌊(s - 100000) / 2⌋ : ℤ) : ℚ) = 12570 := by
      apply min_eq_left
      exact_mod_cast hfl
    rw [hmin]
    norm_num
  · intro hs
    rw [taperedAllowanceOf, if_pos hs]
    rcases le_or_lt ((⌊(s - 100000) / 2⌋ : ℤ) : ℚ) 12570 with hle | hgt
    · rw [min_eq_right hle]
    · rw [min_eq_left hgt.le, sub_self]
      rw [max_eq_left le_rfl, max_eq_left (by linarith)]
  · rw [taperedAllowanceOf]
    split
    · exact le_max_left 0 _
    · norm_num

/-- Witness for C6 at `salaryAfterPension = 130000`. -/
theorem c6_allowance_taper_witness : taperedAllowanceOf 130000 = 0 :=
  (c6_allowance_taper 130000).1 (by norm_num)

/-- C7. `monthsBetween` is never negative, a deadline strictly in the
past yields 0, and a savings goal with 0 months remaining has required
monthly amount 0. -/
theorem c7_months_clamped (s e : SimpleDate) (tg sv : ℚ)
    (hsm : 0 ≤ s.month) (hsm' : s.month ≤ 11)
    (hem : 0 ≤ e.month) (hem' : e.month ≤ 11) :
    0 ≤ monthsBetween s e ∧
    (dateBefore e s → monthsBetween s e = 0) ∧
    monthlyNeedSavings tg sv 0 = 0 := by
  refine ⟨le_max_left 0 _, ?_, ?_⟩
  · intro hb
    simp only [monthsBetween]
    apply max_eq_left
    rcases hb with h | ⟨hy, h | ⟨hm, hd⟩⟩ <;> split <;> omega
  · simp [monthlyNeedSavings]

/-- Witness for C7: reference date 2026-06-10 (month index 5), deadline
2025-01-01 (month index 0) in the past. -/
theorem c7_months_clamped_witness :
    monthsBetween ⟨2026, 5, 10⟩ ⟨2025, 0, 1⟩ = 0 ∧
    monthlyNeedSavings 1000 200 0 = 0 := by
  have h := c7_months_clamped ⟨2026, 5, 10⟩ ⟨2025, 0, 1⟩ 1000 200
    (by norm_num) (by norm_num) (by norm_num) (by norm_num)
  exact ⟨h.2.1 (Or.inl (by norm_num)), h.2.2⟩

/-- C8. For a debt with positive balance, positive APR and positive
months remaining: `totalCost = requiredMonthly × months`, the total
interest is strictly positive, and at APR 0 the required payment is
exactly `balance / months`. -/
theorem c8_debt_totals (balance aprPct : ℚ) (months : ℤ)
    (hb : 0 < balance) (ha : 0 < aprPct) (hm : 0 < months) :
    totalCostDebt balance aprPct months =
      debtMonthlyPayment balance aprPct months * (months : ℚ) ∧
    0 < totalInterestDebt balance aprPct months ∧
    (∀ (b : ℚ) (mo : ℤ), 0 < mo → debtMonthlyPayment b 0 mo = b / (mo : ℚ)) := by
  have hrp : 0 < aprPct / 100 / 12 := by positivity
  refine ⟨?_, ?_, ?_⟩
  · rw [totalCostDebt, if_pos hm, monthlyPaymentDebt, if_pos hm]
  · set r := aprPct / 100 / 12 with hrdef
    have hNpos : 0 < months.toNat := by omega
    set N := months.toNat with hNdef
    have hcast : ((months : ℤ) : ℚ) = (N : ℚ) := by
      rw [hNdef]
      exact_mod_cast (Int.toNat_of_nonneg (by omega)).symm
    have h1r : (0:ℚ) < 1 + r := by linarith
    have hf1 : 1 < (1 + r) ^ N := one_lt_pow₀ (by linarith) (by omega)
    set f := (1 + r) ^ N with hfdef
    have hNq : (0:ℚ) < (N:ℚ) := by exact_mod_cast hNpos
    have hfpos : (0:ℚ) < f := by positivity
    have hb2 : (-2:ℚ) ≤ -r / (1 + r) := by
      have hle1 : r / (1 + r) ≤ 1 := by
        rw [div_le_one h1r]; linarith
      have h0 : 0 ≤ r / (1 + r) := by positivity
      rw [neg_div]
      linarith
    have hber := one_add_mul_le_pow hb2 N
    have hinv : 1 + -r / (1 + r) = (1 + r)⁻¹ := by
      field_simp
    rw [hinv] at hber
    have hmul : (1 + (N:ℚ) * (-r / (1 + r))) * f ≤ ((1 + r)⁻¹) ^ N * f :=
      mul_le_mul_of_nonneg_right hber hfpos.le
    have hid : ((1 + r)⁻¹) ^ N * f = 1 := by
      rw [hfdef, ← mul_pow, inv_mul_cancel₀ (ne_of_gt h1r), one_pow]
    rw [hid] at hmul
    have hexpand : (1 + (N:ℚ) * (-r / (1 + r))) * f =
        f - f * (N:ℚ) * r / (1 + r) := by
      field_simp
      ring
    rw [hexpand] at hmul
    have hkey2 : f * (N:ℚ) * r / (1 + r) < f * (N:ℚ) * r := by
      apply div_lt_self
      · positivity
      · linarith
    have hkey : f - 1 < (N:ℚ) * r * f := by
      calc f - 1 ≤ f * (N:ℚ) * r / (1 + r) := by linarith
        _ < f * (N:ℚ) * r := hkey2
        _ = (N:ℚ) * r * f := by ring
    rw [totalInterestDebt, if_pos hm, totalCostDebt, if_pos hm,
      monthlyPaymentDebt, if_pos hm, debtMonthlyPayment,
      if_neg (by omega : ¬ months ≤ 0)]
    rw [if_neg (not_le.mpr hrp), hcast]
    have hfne : f - 1 ≠ 0 := ne_of_gt (by linarith)
    have hgoal : balance * r * f / (f - 1) * (N:ℚ) - balance =
        balance * ((N:ℚ) * r * f - (f - 1)) / (f - 1) := by
      field_simp
      ring
    rw [hgoal]
    apply div_pos
    · exact mul_pos hb (by linarith)
    · linarith
  · intro b mo hmo
    rw [debtMonthlyPayment, if_neg (by omega : ¬ mo ≤ 0)]
    norm_num

/-- Witness for C8: balance £5000, APR 20%, 12 months. -/
theorem c8_debt_totals_witness : 0 < totalInterestDebt 5000 20 12 :=
  (c8_debt_totals 5000 20 12 (by norm_num) (by norm_num) (by norm_num)).2.1

/-- C10. Every field of `calculateNetSalary` is non-negative for every
input, including negative salaries and pension percentages outside
0–100: the pension and salary-after-pension are clamped at 0 and all
derived figures inherit non-negativity. -/
theorem c10_salary_nonneg (salary pensionPct hoursPerWeek : ℚ) :
    0 ≤ pensionOf salary pensionPct ∧
    0 ≤ salaryAfterPension salary pensionPct ∧
    0 ≤ (calculateNetSalary salary pensionPct hoursPerWeek).pension ∧
    0 ≤ (calculateNetSalary salary pensionPct hoursPerWeek).incomeTax ∧
    0 ≤ (calculateNetSalary salary pensionPct
      hoursPerWeek).nationalInsurance ∧
    0 ≤ (calculateNetSalary salary pensionPct hoursPerWeek).netAnnual ∧
    0 ≤ (calculateNetSalary salary pensionPct hoursPerWeek).netMonthly ∧
    0 ≤ (calculateNetSalary salary pensionPct hoursPerWeek).netWeekly ∧
    0 ≤ (calculateNetSalary salary pensionPct hoursPerWeek).netDaily ∧
    0 ≤ (calculateNetSalary salary pensionPct hoursPerWeek).netHourly := by
  have htax : ∀ q : ℚ, 0 ≤ incomeTaxOf q := by
    intro q
    rw [incomeTaxOf]
    split
    · exact mul_nonneg (le_max_left 0 _) (by norm_num)
    · split
      · next h1 _ =>
        push_neg at h1
        rw [incomeTaxHigher]
        have ht1 : (0:ℚ) ≤ max 0 (50270 - taperedAllowanceOf q) * (20 / 100) :=
          mul_nonneg (le_max_left 0 _) (by norm_num)
        have ht2 : (0:ℚ) ≤ (q - 50270) * (40 / 100) :=
          mul_nonneg (by linarith) (by norm_num)
        linarith
      · next h1 h2 =>
        push_neg at h1 h2
        rw [incomeTaxAdditional]
        have ht1 : (0:ℚ) ≤ max 0 (50270 - taperedAllowanceOf q) * (20 / 100) :=
          mul_nonneg (le_max_left 0 _) (by norm_num)
        have ht2 : (0:ℚ) ≤ ((125140:ℚ) - 50270) * (40 / 100) := by norm_num
        have ht3 : (0:ℚ) ≤ (q - 125140) * (45 / 100) :=
          mul_nonneg (by linarith) (by norm_num)
        linarith
  have hni : ∀ q : ℚ, 0 ≤ nationalInsuranceOf q := by
    intro q
    rw [nationalInsuranceOf]
    split
    · next h => exact mul_nonneg (by linarith) (by norm_num)
    · exact le_rfl
  have hclamp : (0:ℚ) < clamp (if hoursPerWeek = 0 then 37.5
      else hoursPerWeek) 10 80 := by
    rw [clamp]
    apply lt_min (by norm_num)
    exact lt_of_lt_of_le (by norm_num) (le_max_left 10 _)
  simp only [calculateNetSalary]
  refine ⟨le_max_left 0 _, le_max_left 0 _, le_max_left 0 _, htax _, hni _,
    le_max_left 0 _, ?_, ?_, ?_, ?_⟩
  · exact div_nonneg (le_max_left 0 _) (by norm_num)
  · exact div_nonneg (le_max_left 0 _) (by norm_num)
  · exact div_nonneg (div_nonneg (le_max_left 0 _) (by norm_num)) (by norm_num)
  · exact div_nonneg (div_nonneg (le_max_left 0 _) (by norm_num)) hclamp.le

/-- C9. The first recorded projection point is the rounded starting pot
(no growth or contribution at month 0), a point is recorded at every
12th month and at the final month with value
`max 0 (round (potAt ... i))`, and every recorded pot is non-negative. -/
theorem c9_projection (start contrib ret fees : ℚ) (months : ℕ)
    (hs : 0 ≤ start) :
    ((generateProjectionData start contrib ret fees months).head?.map
        ProjPoint.pot = some (round start)) ∧
    (∀ p ∈ generateProjectionData start contrib ret fees months,
      0 ≤ p.pot) ∧
    (∀ i, i ≤ months → i % 12 = 0 ∨ i = months →
      (⟨toString (i / 12) ++ "y",
        max 0 (round (potAt start contrib
          (max (-1) (ret / 100 / 12 - fees / 100 / 12)) i))⟩ : ProjPoint) ∈
        generateProjectionData start contrib ret fees months) := by
  refine ⟨?_, ?_, ?_⟩
  · have hround : (0:ℤ) ≤ round start := by
      rw [round_eq]
      exact Int.floor_nonneg.mpr (by linarith)
    simp only [generateProjectionData, List.range_succ_eq_map,
      List.filterMap_cons]
    norm_num [potAt]
    exact hround
  · intro p hp
    simp only [generateProjectionData] at hp
    rcases List.mem_filterMap.mp hp with ⟨i, _, hfi⟩
    by_cases hc : i % 12 = 0 ∨ i = months
    · rw [if_pos hc] at hfi
      cases hfi
      exact le_max_left 0 _
    · rw [if_neg hc] at hfi
      cases hfi
  · intro i hi hc
    simp only [generateProjectionData]
    refine List.mem_filterMap.mpr ⟨i, List.mem_range.mpr (by omega), ?_⟩
    rw [if_pos hc]

/-- Witness for C9 at `start = 100, months = 0`. -/
theorem c9_projection_witness :
    (generateProjectionData 100 0 0 0 0).head?.map ProjPoint.pot =
      some (round (100 : ℚ)) :=
  (c9_projection 100 0 0 0 0 (by norm_num)).1

end TheSpreadSheet
